import Mathlib

/-!
# Verification of the chat route core of `finance-ai`

Shallow embedding of `src/routes/chat_routes_semantic.py`:

* `_clean_for_json`  — the JSON-safety normalizer (`clean` below), over a
  Python-value datatype `PyVal`;
* `send_message`     — the message-exchange orchestrator, over an explicit
  relational state `DB` with the engine call abstracted by an oracle;
* `get_semantic_bot` — the lazy, lock-guarded singleton initializer, as a
  small-step transition system over per-thread program locations and the
  shared state (`_semantic_bot`, `_bot_loading`, `_bot_load_lock`,
  `_bot_ready_event`).
-/

namespace FinanceAI

/-- Python values as far as `_clean_for_json` can observe them: scalars,
ordered sequences (`list`, `tuple`), mappings (`dict`, keys and values both
arbitrary values), and unordered unique collections (`set`, `frozenset`).
A `set`/`frozenset`/`dict` is carried as the list of its elements /
key-value pairs in iteration order. -/
inductive PyVal where
  | pyNone : PyVal
  | pyBool (b : Bool) : PyVal
  | pyInt (n : Int) : PyVal
  | pyStr (s : String) : PyVal
  | list (xs : List PyVal) : PyVal
  | tuple (xs : List PyVal) : PyVal
  | dict (kvs : List (PyVal × PyVal)) : PyVal
  | set (xs : List PyVal) : PyVal
  | frozenset (xs : List PyVal) : PyVal
deriving Repr

mutual

/-- `_clean_for_json` (src/routes/chat_routes_semantic.py, lines 370-379):
`set`s become `list`s of the very same elements (Python `list(obj)` — a
shallow conversion), `dict`s are rebuilt with the same keys and cleaned
values, `list`s are cleaned elementwise, and everything else (scalars,
tuples, frozensets) is returned unchanged. -/
def clean : PyVal → PyVal
  | .set xs => .list xs
  | .dict kvs => .dict (cleanKVs kvs)
  | .list xs => .list (cleanList xs)
  | .pyNone => .pyNone
  | .pyBool b => .pyBool b
  | .pyInt n => .pyInt n
  | .pyStr s => .pyStr s
  | .tuple xs => .tuple xs
  | .frozenset xs => .frozenset xs

/-- Elementwise cleaning of a list's items (`[_clean_for_json(item) for item in obj]`). -/
def cleanList : List PyVal → List PyVal
  | [] => []
  | x :: xs => clean x :: cleanList xs

/-- Value-wise cleaning of a dict's entries
(`{k: _clean_for_json(v) for k, v in obj.items()}`); keys are not touched. -/
def cleanKVs : List (PyVal × PyVal) → List (PyVal × PyVal)
  | [] => []
  | (k, v) :: rest => (k, clean v) :: cleanKVs rest

end

mutual

/-- Python hashability of a value: scalars are hashable, tuples and
frozensets are hashable exactly when all their elements are, and `list`,
`dict`, `set` are unhashable.  Only hashable values can be elements of a
Python `set`/`frozenset` or keys of a `dict`. -/
def Hashable : PyVal → Bool
  | .pyNone => true
  | .pyBool _ => true
  | .pyInt _ => true
  | .pyStr _ => true
  | .tuple xs => allHashable xs
  | .frozenset xs => allHashable xs
  | .list _ => false
  | .dict _ => false
  | .set _ => false

/-- All values in a list are hashable. -/
def allHashable : List PyVal → Bool
  | [] => true
  | x :: xs => Hashable x && allHashable xs

end

mutual

/-- A `PyVal` is realizable as an actual Python object: every `set` and
`frozenset` holds only hashable elements and every `dict` key is hashable
(CPython raises `TypeError` otherwise), recursively. -/
def Realizable : PyVal → Bool
  | .pyNone => true
  | .pyBool _ => true
  | .pyInt _ => true
  | .pyStr _ => true
  | .tuple xs => allRealizable xs
  | .list xs => allRealizable xs
  | .set xs => allHashable xs
  | .frozenset xs => allHashable xs
  | .dict kvs => allRealizableKVs kvs

/-- All values in a list are realizable. -/
def allRealizable : List PyVal → Bool
  | [] => true
  | x :: xs => Realizable x && allRealizable xs

/-- All keys of a dict are hashable and all values realizable. -/
def allRealizableKVs : List (PyVal × PyVal) → Bool
  | [] => true
  | (k, v) :: rest => Hashable k && Realizable v && allRealizableKVs rest

end

mutual

/-- A value contains an unordered unique collection (`set`) somewhere at any
depth (also inside tuples, frozensets and dict keys). -/
def hasSet : PyVal → Bool
  | .set _ => true
  | .list xs => anyHasSet xs
  | .tuple xs => anyHasSet xs
  | .frozenset xs => anyHasSet xs
  | .dict kvs => anyHasSetKVs kvs
  | .pyNone => false
  | .pyBool _ => false
  | .pyInt _ => false
  | .pyStr _ => false

/-- Some value in a list contains a set. -/
def anyHasSet : List PyVal → Bool
  | [] => false
  | x :: xs => hasSet x || anyHasSet xs

/-- Some key or value of a dict contains a set. -/
def anyHasSetKVs : List (PyVal × PyVal) → Bool
  | [] => false
  | (k, v) :: rest => hasSet k || hasSet v || anyHasSetKVs rest

end

/-- A hashable value is left unchanged by `clean`: hashable values are
scalars, tuples or frozensets, none of which `clean` converts. -/
theorem clean_of_hashable (x : PyVal) (hx : Hashable x = true) : clean x = x := by
  cases x <;> simp [Hashable] at hx <;> simp [clean]

/-- Hashable elements are left pointwise unchanged by `cleanList`. -/
theorem cleanList_of_allHashable (xs : List PyVal) (hxs : allHashable xs = true) :
    cleanList xs = xs := by
  induction xs with
  | nil => rfl
  | cons x xs ih =>
    simp [allHashable, Bool.and_eq_true] at hxs
    simp [cleanList, clean_of_hashable x hxs.1, ih hxs.2]

mutual

/-- On realizable values `clean` is idempotent: the only subterms a `set`
conversion exposes to a second pass are its (hashable) elements, and those
are fixed points of `clean`. -/
theorem clean_clean (x : PyVal) (hx : Realizable x = true) :
    clean (clean x) = clean x := by
  cases x with
  | set xs =>
    simp only [Realizable] at hx
    simp [clean, cleanList_of_allHashable xs hx]
  | dict kvs =>
    simp only [Realizable] at hx
    simp [clean, cleanKVs_cleanKVs kvs hx]
  | list xs =>
    simp only [Realizable] at hx
    simp [clean, cleanList_cleanList xs hx]
  | pyNone => rfl
  | pyBool b => rfl
  | pyInt n => rfl
  | pyStr s => rfl
  | tuple xs => rfl
  | frozenset xs => rfl

/-- `cleanList` is idempotent on lists of realizable values. -/
theorem cleanList_cleanList (xs : List PyVal) (hxs : allRealizable xs = true) :
    cleanList (cleanList xs) = cleanList xs := by
  cases xs with
  | nil => rfl
  | cons x xs =>
    simp only [allRealizable, Bool.and_eq_true] at hxs
    simp [cleanList, clean_clean x hxs.1, cleanList_cleanList xs hxs.2]

/-- `cleanKVs` is idempotent on entry lists with realizable values. -/
theorem cleanKVs_cleanKVs (kvs : List (PyVal × PyVal)) (hkvs : allRealizableKVs kvs = true) :
    cleanKVs (cleanKVs kvs) = cleanKVs kvs := by
  cases kvs with
  | nil => rfl
  | cons kv rest =>
    obtain ⟨k, v⟩ := kv
    simp only [allRealizableKVs, Bool.and_eq_true] at hkvs
    simp [cleanKVs, clean_clean v hkvs.1.2, cleanKVs_cleanKVs rest hkvs.2]

end

mutual

/-- `clean` is the identity on any value containing no `set` at any depth. -/
theorem clean_of_not_hasSet (x : PyVal) (hx : hasSet x = false) : clean x = x := by
  cases x with
  | set xs => simp [hasSet] at hx
  | dict kvs =>
    simp only [hasSet] at hx
    simp [clean, cleanKVs_of_not_anyHasSetKVs kvs hx]
  | list xs =>
    simp only [hasSet] at hx
    simp [clean, cleanList_of_not_anyHasSet xs hx]
  | pyNone => rfl
  | pyBool b => rfl
  | pyInt n => rfl
  | pyStr s => rfl
  | tuple xs => rfl
  | frozenset xs => rfl

/-- `cleanList` is the identity on lists of set-free values. -/
theorem cleanList_of_not_anyHasSet (xs : List PyVal) (hxs : anyHasSet xs = false) :
    cleanList xs = xs := by
  cases xs with
  | nil => rfl
  | cons x xs =>
    simp only [anyHasSet, Bool.or_eq_false_iff] at hxs
    simp [cleanList, clean_of_not_hasSet x hxs.1, cleanList_of_not_anyHasSet xs hxs.2]

/-- `cleanKVs` is the identity on entry lists of set-free keys and values. -/
theorem cleanKVs_of_not_anyHasSetKVs (kvs : List (PyVal × PyVal))
    (hkvs : anyHasSetKVs kvs = false) : cleanKVs kvs = kvs := by
  cases kvs with
  | nil => rfl
  | cons kv rest =>
    obtain ⟨k, v⟩ := kv
    simp only [anyHasSetKVs, Bool.or_eq_false_iff] at hkvs
    simp [cleanKVs, clean_of_not_hasSet v hkvs.1.2, cleanKVs_of_not_anyHasSetKVs rest hkvs.2]

end

/-- C6: the JSON-safety normalizer `_clean_for_json` is idempotent —
`clean (clean x) = clean x` — for every finite acyclic input (every input it
can actually receive is `Realizable`, because Python sets, frozensets and
dict keys only ever hold hashable values), and it is the identity on every
input containing no unordered unique collection at any depth. -/
theorem C6_clean_idempotent_and_identity (x : PyVal) :
    (Realizable x = true → clean (clean x) = clean x) ∧
    (hasSet x = false → clean x = x) :=
  ⟨clean_clean x, clean_of_not_hasSet x⟩

/-- Witness for C6 at concrete inputs: the `understanding.entities` shape
from the spec scenario (a dict holding a set of two strings) for idempotence,
and a set-free nested value for the identity half. -/
theorem C6_witness :
    clean (clean (.dict [(.pyStr "entities", .set [.pyStr "rent", .pyStr "food"])]))
        = clean (.dict [(.pyStr "entities", .set [.pyStr "rent", .pyStr "food"])]) ∧
    clean (.dict [(.pyStr "a", .list [.pyInt 1, .tuple [.pyStr "b"]])])
        = .dict [(.pyStr "a", .list [.pyInt 1, .tuple [.pyStr "b"]])] :=
  ⟨(C6_clean_idempotent_and_identity _).1 rfl,
   (C6_clean_idempotent_and_identity _).2 rfl⟩

/-- C9: `_clean_for_json` recurses only into dict values and list elements:
a `set` is converted to a `list` whose elements are the set's elements
unmodified (shallow `list(obj)`), a dict is rebuilt with untouched keys and
cleaned values, a list is cleaned elementwise, and any value that is neither
a set, a dict nor a list — a scalar, a tuple, or a frozenset — passes
through unconverted even when it contains sets inside it. -/
theorem C9_clean_shallow_on_sets (xs ys : List PyVal) (kvs : List (PyVal × PyVal))
    (b : Bool) (n : Int) (s : String) :
    clean (.set xs) = .list xs ∧
    clean (.dict kvs) = .dict (cleanKVs kvs) ∧
    clean (.list xs) = .list (cleanList xs) ∧
    clean (.tuple xs) = .tuple xs ∧
    clean (.frozenset xs) = .frozenset xs ∧
    clean .pyNone = .pyNone ∧
    clean (.pyBool b) = .pyBool b ∧
    clean (.pyInt n) = .pyInt n ∧
    clean (.pyStr s) = .pyStr s ∧
    clean (.tuple (.set xs :: ys)) = .tuple (.set xs :: ys) ∧
    clean (.frozenset (.set xs :: ys)) = .frozenset (.set xs :: ys) ∧
    clean (.set (.set xs :: ys)) = .list (.set xs :: ys) :=
  ⟨rfl, rfl, rfl, rfl, rfl, rfl, rfl, rfl, rfl, rfl, rfl, rfl⟩

/-! ## Message exchange orchestrator (`send_message`, lines 193-367)

The relational store is explicit: a list of conversations and an append-only
list of messages in creation (= insertion) order, so "order by `created_at`
descending" is `List.reverse` of the per-conversation sublist.  The engine
call `bot.process_message(...)` is abstracted by an oracle mapping the
conversation history it is handed to an outcome: a structured response, a
raised `TimeoutError`, a raised `RuntimeError`, or any other exception
(which the route's outer handler turns into a rollback and a 500). -/

/-- A row of the `conversations` table, as the route reads and mutates it. -/
structure Conversation where
  id : Nat
  user_id : Nat
  title : String
  updated_at : Nat
deriving Repr, DecidableEq

/-- A row of the `messages` table as constructed by `send_message`: the
`Message(...)` constructor fills `conversation_id`, `role`, `content` and
optionally `intent` and `confidence`; `set_entities` fills `entities`.
Fields not passed stay unset (`none`). -/
structure MessageRow where
  conversation_id : Nat
  role : String
  content : String
  intent : Option String := none
  confidence : Option Rat := none
  entities : Option PyVal := none
deriving Repr

/-- The engine's structured result dict: mandatory `response`, optional
`intent`, `confidence`, `data`, `chart_type` and an `understanding` mapping
(per the engine collaborator contract, `understanding` is a dict; `none`
models an absent key, read back with default `{}`). -/
structure AIResponse where
  response : String
  intent : Option String := none
  confidence : Option Rat := none
  data : Option PyVal := none
  chart_type : Option String := none
  understanding : Option (List (PyVal × PyVal)) := none
deriving Repr

/-- Outcome of the engine-acquisition-plus-invocation block (lines 229-274):
a successful structured response, a raised `TimeoutError`, a raised
`RuntimeError`, or any other exception. -/
inductive EngineOutcome where
  | success (resp : AIResponse)
  | timeoutErr (msg : String)
  | runtimeErr (msg : String)
  | unexpected (msg : String)
deriving Repr

/-- The database state visible to one request: committed conversations and
committed messages in creation order. -/
structure DB where
  conversations : List Conversation
  messages : List MessageRow
deriving Repr

/-- The HTTP-level result of `send_message`: the 200 success envelope
(carrying the two rows, the `ai_response` object the handler ended up with,
and the cleaned `understanding` payload), or the 404 / 400 / 500 error
envelopes. -/
inductive SendResult where
  | ok (user_message assistant_message : MessageRow) (air : AIResponse) (understanding : PyVal)
  | notFound
  | emptyContent
  | serverError (msg : String)

/-- Python `str.strip()` (line 212): remove leading and trailing whitespace
characters. -/
def pyStrip (s : String) : String :=
  String.mk (((s.data.dropWhile Char.isWhitespace).reverse.dropWhile Char.isWhitespace).reverse)

/-- `Conversation.query.filter_by(id=conversation_id, user_id=current_user.id).first()`. -/
def findConv (db : DB) (cid uid : Nat) : Option Conversation :=
  db.conversations.find? (fun c => c.id == cid && c.user_id == uid)

/-- Mutating the single ORM object returned by `.first()`: rewrite the first
list entry satisfying `p` with `f`. -/
def updateFirst (p : Conversation → Bool) (f : Conversation → Conversation) :
    List Conversation → List Conversation
  | [] => []
  | c :: cs => if p c then f c :: cs else c :: updateFirst p f cs

/-- Lines 333-334: derive a title when the current one is empty or the
placeholder, truncating the user message to 50 characters and appending an
ellipsis marker exactly when it was longer than 50. -/
def newTitle (title content : String) : String :=
  if title = "" ∨ title = "New Conversation" then
    content.take 50 ++ (if 50 < content.length then "..." else "")
  else title

/-- The user message row (lines 220-224). -/
def userMsg (cid : Nat) (content : String) : MessageRow :=
  { conversation_id := cid, role := "user", content := content }

/-- The session's message view right after `db.session.flush()` (line 226):
all committed messages plus the pending user row, in creation order. -/
def flushedMessages (db : DB) (cid : Nat) (content : String) : List MessageRow :=
  db.messages ++ [userMsg cid content]

/-- Lines 239-248: fetch up to the 10 most recent messages of the
conversation (descending by creation time), drop the first (the just-flushed
current message), reverse back to chronological order and project each to
its `(role, content)` record. -/
def historyFor (msgs : List MessageRow) (cid : Nat) : List (String × String) :=
  let recent := ((msgs.filter (fun m => m.conversation_id == cid)).reverse).take 10
  (recent.drop 1).reverse.map (fun m => (m.role, m.content))

/-- Python `dict.get(key)` on an entry list with arbitrary (hashable) keys:
the value under the string key, if present. -/
def dictGet (kvs : List (PyVal × PyVal)) (key : String) : Option PyVal :=
  match kvs with
  | [] => none
  | (.pyStr s, v) :: rest => if s = key then some v else dictGet rest key
  | _ :: rest => dictGet rest key

/-- Python truthiness of a value (`if understanding:` / `if ...get('entities'):`). -/
def truthy : PyVal → Bool
  | .pyNone => false
  | .pyBool b => b
  | .pyInt n => n != 0
  | .pyStr s => s != ""
  | .list xs => !xs.isEmpty
  | .tuple xs => !xs.isEmpty
  | .dict kvs => !kvs.isEmpty
  | .set xs => !xs.isEmpty
  | .frozenset xs => !xs.isEmpty

/-- The canned apology persisted on the `TimeoutError` path (lines 293-300). -/
def timeoutApologyText : String :=
  "I\x27m experiencing high load right now and couldn\x27t process your request in time. Please try again in a moment."

/-- The canned apology persisted on the `RuntimeError` path (lines 313-320). -/
def initApologyText : String :=
  "I\x27m having trouble initializing my AI models right now. Please wait a moment and try again."

/-- An apology assistant row: only `conversation_id`, `role` and `content`
are passed to `Message(...)` on the error paths. -/
def apologyRow (cid : Nat) (text : String) : MessageRow :=
  { conversation_id := cid, role := "assistant", content := text }

/-- The assistant row built on the success path (lines 277-286): response
text, optional intent and confidence, and `set_entities` exactly when
`ai_response.get('understanding', {}).get('entities')` is truthy. -/
def successRow (cid : Nat) (resp : AIResponse) : MessageRow :=
  let base : MessageRow :=
    { conversation_id := cid, role := "assistant", content := resp.response,
      intent := resp.intent, confidence := resp.confidence }
  match dictGet (resp.understanding.getD []) "entities" with
  | some v => if truthy v then { base with entities := some v } else base
  | none => base

/-- The `ai_response` dict synthesized on the `TimeoutError` path
(lines 302-308). -/
def timeoutAIResponse : AIResponse :=
  { response := timeoutApologyText, intent := some "error", data := none,
    chart_type := none, understanding := some [(.pyStr "error", .pyStr "timeout")] }

/-- The `ai_response` dict synthesized on the `RuntimeError` path
(lines 322-328), carrying `str(e)` as the error marker. -/
def initFailureAIResponse (m : String) : AIResponse :=
  { response := initApologyText, intent := some "error", data := none,
    chart_type := none, understanding := some [(.pyStr "error", .pyStr m)] }

/-- Lines 339-343: take `ai_response.get('understanding', {})` and, when it
is truthy (non-empty), deep-clean its sets for JSON serialization. -/
def cleanedUnderstanding (air : AIResponse) : PyVal :=
  if truthy (.dict (air.understanding.getD [])) then clean (.dict (air.understanding.getD []))
  else .dict (air.understanding.getD [])

/-- Steps 4-7 of the handler (lines 330-356): mutate the conversation's
`updated_at` and possibly `title`, commit the user and assistant rows
atomically (`commitFail = some e` models `db.session.commit()` raising `e`,
which the outer handler turns into a rollback and a 500), then clean the
`understanding` payload and return the success envelope. -/
def commitExchange (db : DB) (cid uid : Nat) (content : String) (now : Nat)
    (userRow arow : MessageRow) (air : AIResponse) (commitFail : Option String) :
    DB × SendResult :=
  match commitFail with
  | some e => (db, .serverError e)
  | none =>
      let db' : DB :=
        { conversations := updateFirst (fun c => c.id == cid && c.user_id == uid)
            (fun c => { c with updated_at := now, title := newTitle c.title content })
            db.conversations,
          messages := db.messages ++ [userRow, arow] }
      (db', .ok userRow arow air (cleanedUnderstanding air))

/-- The `send_message` route handler (lines 193-367): ownership check,
content validation, flush of the user row, history assembly, engine call,
per-outcome assistant row and `ai_response` synthesis, conversation-metadata
update, atomic commit (rollback on unexpected failure) and response. -/
def send_message (db : DB) (cid uid : Nat) (raw : String) (now : Nat)
    (engine : List (String × String) → EngineOutcome) (commitFail : Option String) :
    DB × SendResult :=
  match findConv db cid uid with
  | none => (db, .notFound)
  | some _ =>
      let content := pyStrip raw
      if content = "" then (db, .emptyContent)
      else
        let userRow := userMsg cid content
        match engine (historyFor (flushedMessages db cid content) cid) with
        | .success resp =>
            commitExchange db cid uid content now userRow (successRow cid resp) resp commitFail
        | .timeoutErr _ =>
            commitExchange db cid uid content now userRow (apologyRow cid timeoutApologyText)
              timeoutAIResponse commitFail
        | .runtimeErr m =>
            commitExchange db cid uid content now userRow (apologyRow cid initApologyText)
              (initFailureAIResponse m) commitFail
        | .unexpected m => (db, .serverError m)

/-- `updateFirst` commutes with `find?` when the rewrite preserves the
predicate: the first match is rewritten, everything else untouched. -/
theorem find?_updateFirst (p : Conversation → Bool) (f : Conversation → Conversation)
    (hpf : ∀ c, p c = true → p (f c) = true) :
    ∀ l : List Conversation, (updateFirst p f l).find? p = (l.find? p).map f
  | [] => rfl
  | c :: cs => by
      by_cases hc : p c = true
      · simp only [updateFirst, if_pos hc]
        rw [List.find?_cons_of_pos _ (hpf c hc), List.find?_cons_of_pos _ hc]
        rfl
      · have hc' : ¬ (p c = true) := hc
        simp only [updateFirst, if_neg hc]
        rw [List.find?_cons_of_neg _ hc', List.find?_cons_of_neg _ hc',
          find?_updateFirst p f hpf cs]

/-- After the commit, looking the conversation up again yields the object
with `updated_at := now` and the derived title. -/
theorem findConv_after_update (db : DB) (msgs : List MessageRow) (cid uid now : Nat)
    (content : String) (conv : Conversation)
    (hconv : findConv db cid uid = some conv) :
    findConv
      ⟨updateFirst (fun c => c.id == cid && c.user_id == uid)
        (fun c => { c with updated_at := now, title := newTitle c.title content })
        db.conversations, msgs⟩ cid uid
      = some { conv with updated_at := now, title := newTitle conv.title content } := by
  have h := find?_updateFirst (fun c => c.id == cid && c.user_id == uid)
    (fun c => { c with updated_at := now, title := newTitle c.title content })
    (fun c hc => hc) db.conversations
  unfold findConv at hconv ⊢
  dsimp only
  rw [h, hconv]
  rfl

/-- The success-path assistant row always carries role `assistant`. -/
theorem successRow_role (cid : Nat) (resp : AIResponse) :
    (successRow cid resp).role = "assistant" := by
  unfold successRow
  cases dictGet (resp.understanding.getD []) "entities" with
  | none => rfl
  | some v => by_cases hv : truthy v <;> simp [hv]

/-- A concrete conversation used by the witnesses. -/
def convEx : Conversation :=
  { id := 1, user_id := 7, title := "New Conversation", updated_at := 3 }

/-- A concrete one-conversation store used by the witnesses. -/
def dbEx : DB := { conversations := [convEx], messages := [] }

/-- An engine oracle that always raises `TimeoutError`. -/
def engineTOEx : List (String × String) → EngineOutcome := fun _ => .timeoutErr "slow"

/-- An engine oracle that always raises `RuntimeError`. -/
def engineRTEx : List (String × String) → EngineOutcome := fun _ => .runtimeErr "boom"

/-- An engine oracle that always succeeds with a plain response. -/
def engineOkEx : List (String × String) → EngineOutcome :=
  fun _ => .success { response := "hi" }

/-- Fifteen prior messages for conversation 1, in creation order. -/
def msgsEx : List MessageRow :=
  (List.range 15).map (fun i =>
    { conversation_id := 1, role := if i % 2 == 0 then "user" else "assistant",
      content := toString i })

/-- A store whose conversation 1 already holds 15 messages. -/
def dbHistEx : DB := { conversations := [convEx], messages := msgsEx }

/-- A 70-character message used by the title-truncation witness. -/
def raw70Ex : String :=
  "0123456789012345678901234567890123456789012345678901234567890123456789"

/-- C3: whenever the engine block raises `TimeoutError` or `RuntimeError`
(initialization failure), `send_message` does not re-raise: it persists
exactly the user row and one assistant row carrying the canned apology,
commits, sets the conversation's `updated_at` to now (advancing it), and
returns a synthesized `ai_response` whose intent is `error` and whose
`understanding` carries the error marker — `"timeout"` for `TimeoutError`,
the failure message for `RuntimeError`. -/
theorem C3_engine_error_exchange (db : DB) (cid uid : Nat) (raw : String) (now : Nat)
    (engine : List (String × String) → EngineOutcome) (conv : Conversation)
    (isTO : Bool) (tmsg m : String)
    (hconv : findConv db cid uid = some conv)
    (hne : ¬ (pyStrip raw) = "")
    (heo : engine (historyFor (flushedMessages db cid (pyStrip raw)) cid)
            = if isTO then .timeoutErr tmsg else .runtimeErr m)
    (hnow : conv.updated_at < now) :
    ∃ db' arow air und conv',
      send_message db cid uid raw now engine none
        = (db', .ok (userMsg cid (pyStrip raw)) arow air und) ∧
      db'.messages = db.messages ++ [userMsg cid (pyStrip raw), arow] ∧
      (userMsg cid (pyStrip raw)).role = "user" ∧
      arow.role = "assistant" ∧
      arow.content = (if isTO then timeoutApologyText else initApologyText) ∧
      air.intent = some "error" ∧ air.data = none ∧ air.chart_type = none ∧
      air.understanding = some [(.pyStr "error", .pyStr (if isTO then "timeout" else m))] ∧
      und = .dict [(.pyStr "error", .pyStr (if isTO then "timeout" else m))] ∧
      findConv db' cid uid = some conv' ∧
      conv'.updated_at = now ∧
      conv.updated_at < conv'.updated_at := by
  cases isTO with
  | true =>
      simp only [if_pos rfl] at heo ⊢
      refine ⟨_, apologyRow cid timeoutApologyText, timeoutAIResponse,
        .dict [(.pyStr "error", .pyStr "timeout")],
        { conv with updated_at := now, title := newTitle conv.title (pyStrip raw) },
        ?_, rfl, rfl, rfl, rfl, rfl, rfl, rfl, rfl, rfl,
        findConv_after_update db _ cid uid now (pyStrip raw) conv hconv, rfl, hnow⟩
      simp only [send_message, hconv, if_neg hne, heo, commitExchange]
      rfl
  | false =>
      simp only [Bool.false_eq_true, if_false] at heo ⊢
      refine ⟨_, apologyRow cid initApologyText, initFailureAIResponse m,
        .dict [(.pyStr "error", .pyStr m)],
        { conv with updated_at := now, title := newTitle conv.title (pyStrip raw) },
        ?_, rfl, rfl, rfl, rfl, rfl, rfl, rfl, rfl, rfl,
        findConv_after_update db _ cid uid now (pyStrip raw) conv hconv, rfl, hnow⟩
      simp only [send_message, hconv, if_neg hne, heo, commitExchange]
      rfl

/-- Witness for C3 on the `TimeoutError` path, at a one-conversation store. -/
theorem C3_witness :
    ∃ db' arow air und conv',
      send_message dbEx 1 7 " hello " 5 engineTOEx none
        = (db', .ok (userMsg 1 (pyStrip " hello ")) arow air und) ∧
      db'.messages = dbEx.messages ++ [userMsg 1 (pyStrip " hello "), arow] ∧
      (userMsg 1 (pyStrip " hello ")).role = "user" ∧
      arow.role = "assistant" ∧
      arow.content = timeoutApologyText ∧
      air.intent = some "error" ∧ air.data = none ∧ air.chart_type = none ∧
      air.understanding = some [(.pyStr "error", .pyStr "timeout")] ∧
      und = .dict [(.pyStr "error", .pyStr "timeout")] ∧
      findConv db' 1 7 = some conv' ∧
      conv'.updated_at = 5 ∧
      convEx.updated_at < conv'.updated_at :=
  C3_engine_error_exchange dbEx 1 7 " hello " 5 engineTOEx convEx true "slow" "x"
    rfl (by decide) rfl (by decide)

/-- C10: on the `TimeoutError` and `RuntimeError` paths, the persisted
assistant apology row carries only role and content — its `intent`,
`confidence` and `entities` fields are left unset — even though the
`ai_response` synthesized for the same exchange reports intent `error`. -/
theorem C10_error_rows_unlabeled (db : DB) (cid uid : Nat) (raw : String) (now : Nat)
    (engine : List (String × String) → EngineOutcome) (conv : Conversation)
    (isTO : Bool) (tmsg m : String)
    (hconv : findConv db cid uid = some conv)
    (hne : ¬ (pyStrip raw) = "")
    (heo : engine (historyFor (flushedMessages db cid (pyStrip raw)) cid)
            = if isTO then .timeoutErr tmsg else .runtimeErr m) :
    ∃ db' arow air und,
      send_message db cid uid raw now engine none
        = (db', .ok (userMsg cid (pyStrip raw)) arow air und) ∧
      arow.role = "assistant" ∧
      arow.intent = none ∧ arow.confidence = none ∧ arow.entities = none ∧
      air.intent = some "error" := by
  cases isTO with
  | true =>
      simp at heo
      have hsm : send_message db cid uid raw now engine none
          = (⟨updateFirst (fun c => c.id == cid && c.user_id == uid)
                (fun c => { c with updated_at := now, title := newTitle c.title (pyStrip raw) })
                db.conversations,
              db.messages ++ [userMsg cid (pyStrip raw), apologyRow cid timeoutApologyText]⟩,
             .ok (userMsg cid (pyStrip raw)) (apologyRow cid timeoutApologyText)
               timeoutAIResponse (cleanedUnderstanding timeoutAIResponse)) := by
        simp only [send_message, hconv, if_neg hne, heo, commitExchange]
      exact ⟨_, _, _, _, hsm, rfl, rfl, rfl, rfl, rfl⟩
  | false =>
      simp at heo
      have hsm : send_message db cid uid raw now engine none
          = (⟨updateFirst (fun c => c.id == cid && c.user_id == uid)
                (fun c => { c with updated_at := now, title := newTitle c.title (pyStrip raw) })
                db.conversations,
              db.messages ++ [userMsg cid (pyStrip raw), apologyRow cid initApologyText]⟩,
             .ok (userMsg cid (pyStrip raw)) (apologyRow cid initApologyText)
               (initFailureAIResponse m) (cleanedUnderstanding (initFailureAIResponse m))) := by
        simp only [send_message, hconv, if_neg hne, heo, commitExchange]
      exact ⟨_, _, _, _, hsm, rfl, rfl, rfl, rfl, rfl⟩

/-- Witness for C10 on the `RuntimeError` path. -/
theorem C10_witness :
    ∃ db' arow air und,
      send_message dbEx 1 7 "hey" 5 engineRTEx none
        = (db', .ok (userMsg 1 (pyStrip "hey")) arow air und) ∧
      arow.role = "assistant" ∧
      arow.intent = none ∧ arow.confidence = none ∧ arow.entities = none ∧
      air.intent = some "error" :=
  C10_error_rows_unlabeled dbEx 1 7 "hey" 5 engineRTEx convEx false "x" "boom"
    rfl (by decide) rfl

/-- C4: `send_message` never persists a user row without a paired assistant
row or vice versa: a non-existent or foreign-owned conversation yields
`notFound` with the store untouched, any 500 (`serverError`) path leaves the
store exactly as before (full rollback), and otherwise exactly one user row
and one assistant row are appended together by the single commit. -/
theorem C4_atomic_pairing (db : DB) (cid uid : Nat) (raw : String) (now : Nat)
    (engine : List (String × String) → EngineOutcome) (commitFail : Option String) :
    (findConv db cid uid = none →
      send_message db cid uid raw now engine commitFail = (db, .notFound)) ∧
    ((send_message db cid uid raw now engine commitFail).1 = db ∨
      ∃ u a air und,
        (send_message db cid uid raw now engine commitFail).1.messages
          = db.messages ++ [u, a] ∧
        u.role = "user" ∧ a.role = "assistant" ∧
        (send_message db cid uid raw now engine commitFail).2 = .ok u a air und) ∧
    (∀ m, (send_message db cid uid raw now engine commitFail).2 = .serverError m →
      (send_message db cid uid raw now engine commitFail).1 = db) := by
  rcases hfc : findConv db cid uid with _ | conv
  · refine ⟨fun _ => by simp [send_message, hfc], ?_, ?_⟩
    · left
      simp [send_message, hfc]
    · intro m hm
      simp [send_message, hfc] at hm
  · by_cases hne : pyStrip raw = ""
    · refine ⟨fun h => Option.noConfusion h, ?_, ?_⟩
      · left
        simp [send_message, hfc, hne]
      · intro m hm
        simp [send_message, hfc, hne] at hm
    · rcases heo : engine (historyFor (flushedMessages db cid (pyStrip raw)) cid)
        with resp | tm | rm | um
      · cases commitFail with
        | none =>
            refine ⟨fun h => Option.noConfusion h, .inr ⟨userMsg cid (pyStrip raw),
              successRow cid resp, resp, cleanedUnderstanding resp, ?_, rfl,
              successRow_role cid resp, ?_⟩, ?_⟩
            · simp [send_message, hfc, hne, heo, commitExchange]
            · simp [send_message, hfc, hne, heo, commitExchange]
            · intro m hm
              simp [send_message, hfc, hne, heo, commitExchange] at hm
        | some e =>
            refine ⟨fun h => Option.noConfusion h, .inl ?_, fun m _ => ?_⟩
            · simp [send_message, hfc, hne, heo, commitExchange]
            · simp [send_message, hfc, hne, heo, commitExchange]
      · cases commitFail with
        | none =>
            refine ⟨fun h => Option.noConfusion h, .inr ⟨userMsg cid (pyStrip raw),
              apologyRow cid timeoutApologyText, timeoutAIResponse,
              cleanedUnderstanding timeoutAIResponse, ?_, rfl, rfl, ?_⟩, ?_⟩
            · simp [send_message, hfc, hne, heo, commitExchange]
            · simp [send_message, hfc, hne, heo, commitExchange]
            · intro m hm
              simp [send_message, hfc, hne, heo, commitExchange] at hm
        | some e =>
            refine ⟨fun h => Option.noConfusion h, .inl ?_, fun m _ => ?_⟩
            · simp [send_message, hfc, hne, heo, commitExchange]
            · simp [send_message, hfc, hne, heo, commitExchange]
      · cases commitFail with
        | none =>
            refine ⟨fun h => Option.noConfusion h, .inr ⟨userMsg cid (pyStrip raw),
              apologyRow cid initApologyText, initFailureAIResponse rm,
              cleanedUnderstanding (initFailureAIResponse rm), ?_, rfl, rfl, ?_⟩, ?_⟩
            · simp [send_message, hfc, hne, heo, commitExchange]
            · simp [send_message, hfc, hne, heo, commitExchange]
            · intro m hm
              simp [send_message, hfc, hne, heo, commitExchange] at hm
        | some e =>
            refine ⟨fun h => Option.noConfusion h, .inl ?_, fun m _ => ?_⟩
            · simp [send_message, hfc, hne, heo, commitExchange]
            · simp [send_message, hfc, hne, heo, commitExchange]
      · refine ⟨fun h => Option.noConfusion h, .inl ?_, fun m _ => ?_⟩
        · simp [send_message, hfc, hne, heo]
        · simp [send_message, hfc, hne, heo]

/-- Witness for C4 on the not-found branch: no conversation 2 exists, so the
exchange returns 404 and persists nothing. -/
theorem C4_witness :
    send_message dbEx 2 7 "hi" 5 engineTOEx none = (dbEx, .notFound) :=
  (C4_atomic_pairing dbEx 2 7 "hi" 5 engineTOEx none).1 rfl

/-- C5: with 15 prior messages in the conversation plus the just-flushed
current user message, the history handed to the engine is exactly the 9 most
recent prior messages (the 10 most recent of the flushed view minus the
current one), in chronological order, projected to (role, content) — and
`send_message` consults the engine at exactly that history: engines agreeing
there yield identical exchanges. -/
theorem C5_history_window (db : DB) (cid : Nat) (raw : String)
    (hlen : (db.messages.filter (fun mg => mg.conversation_id == cid)).length = 15) :
    historyFor (flushedMessages db cid (pyStrip raw)) cid
      = ((db.messages.filter (fun mg => mg.conversation_id == cid)).drop 6).map
          (fun mg => (mg.role, mg.content)) ∧
    ∀ (uid now : Nat) (engine engine2 : List (String × String) → EngineOutcome)
      (commitFail : Option String),
      engine (((db.messages.filter (fun mg => mg.conversation_id == cid)).drop 6).map
          (fun mg => (mg.role, mg.content)))
        = engine2 (((db.messages.filter (fun mg => mg.conversation_id == cid)).drop 6).map
          (fun mg => (mg.role, mg.content))) →
      send_message db cid uid raw now engine commitFail
        = send_message db cid uid raw now engine2 commitFail := by
  have hfil : (flushedMessages db cid (pyStrip raw)).filter
        (fun mg => mg.conversation_id == cid)
      = db.messages.filter (fun mg => mg.conversation_id == cid)
          ++ [userMsg cid (pyStrip raw)] := by
    simp [flushedMessages, List.filter_append, userMsg]
  have h1 : historyFor (flushedMessages db cid (pyStrip raw)) cid
      = ((db.messages.filter (fun mg => mg.conversation_id == cid)).drop 6).map
          (fun mg => (mg.role, mg.content)) := by
    unfold historyFor
    rw [hfil, List.reverse_append]
    simp only [List.reverse_cons, List.reverse_nil, List.nil_append, List.singleton_append]
    rw [show (10 : Nat) = 9 + 1 from rfl, List.take_succ_cons,
      show (1 : Nat) = 0 + 1 from rfl, List.drop_succ_cons, List.drop_zero,
      List.take_reverse, hlen]
    norm_num
  refine ⟨h1, ?_⟩
  intro uid now engine engine2 commitFail he
  simp only [send_message]
  rw [h1, he]

/-- Witness for C5 at a store holding 15 messages for conversation 1. -/
theorem C5_witness :
    historyFor (flushedMessages dbHistEx 1 (pyStrip "next")) 1
      = ((dbHistEx.messages.filter (fun mg => mg.conversation_id == 1)).drop 6).map
          (fun mg => (mg.role, mg.content)) :=
  (C5_history_window dbHistEx 1 "next" (by decide)).1

/-- C8: for every exchange on a conversation whose title is empty or the
placeholder `New Conversation`, the commit stores the title derived from the
user's (stripped) message: its first 50 characters, with an ellipsis marker
appended exactly when the message exceeds 50 characters; a meaningful title
is kept; and `updated_at` is set to now on every committed path. -/
theorem C8_title_derivation (db : DB) (cid uid : Nat) (raw : String) (now : Nat)
    (engine : List (String × String) → EngineOutcome) (conv : Conversation)
    (hconv : findConv db cid uid = some conv)
    (hne : ¬ (pyStrip raw) = "")
    (hnu : ∀ m, engine (historyFor (flushedMessages db cid (pyStrip raw)) cid)
            ≠ .unexpected m) :
    ∃ db' u a air und conv',
      send_message db cid uid raw now engine none = (db', .ok u a air und) ∧
      findConv db' cid uid = some conv' ∧
      conv'.updated_at = now ∧
      ((conv.title = "" ∨ conv.title = "New Conversation") →
        conv'.title = (pyStrip raw).take 50
          ++ (if 50 < (pyStrip raw).length then "..." else "")) ∧
      (¬ (conv.title = "" ∨ conv.title = "New Conversation") →
        conv'.title = conv.title) := by
  have hfind := findConv_after_update db
  have htpos : ∀ hc : conv.title = "" ∨ conv.title = "New Conversation",
      newTitle conv.title (pyStrip raw)
        = (pyStrip raw).take 50 ++ (if 50 < (pyStrip raw).length then "..." else "") := by
    intro hc
    unfold newTitle
    rw [if_pos hc]
  have htneg : ∀ _ : ¬ (conv.title = "" ∨ conv.title = "New Conversation"),
      newTitle conv.title (pyStrip raw) = conv.title := by
    intro hc
    unfold newTitle
    rw [if_neg hc]
  rcases heo : engine (historyFor (flushedMessages db cid (pyStrip raw)) cid)
    with resp | tm | rm | um
  · exact ⟨_, _, _, _, _,
      { conv with updated_at := now, title := newTitle conv.title (pyStrip raw) },
      by simp only [send_message, hconv, if_neg hne, heo, commitExchange]; rfl,
      findConv_after_update db _ cid uid now (pyStrip raw) conv hconv,
      rfl, htpos, htneg⟩
  · exact ⟨_, _, _, _, _,
      { conv with updated_at := now, title := newTitle conv.title (pyStrip raw) },
      by simp only [send_message, hconv, if_neg hne, heo, commitExchange]; rfl,
      findConv_after_update db _ cid uid now (pyStrip raw) conv hconv,
      rfl, htpos, htneg⟩
  · exact ⟨_, _, _, _, _,
      { conv with updated_at := now, title := newTitle conv.title (pyStrip raw) },
      by simp only [send_message, hconv, if_neg hne, heo, commitExchange]; rfl,
      findConv_after_update db _ cid uid now (pyStrip raw) conv hconv,
      rfl, htpos, htneg⟩
  · exact absurd heo (hnu um)

/-- Witness for C8: the placeholder-titled conversation and a 70-character
message yield the first 50 characters plus the ellipsis marker. -/
theorem C8_witness :
    ∃ db' u a air und conv',
      send_message dbEx 1 7 raw70Ex 5 engineOkEx none = (db', .ok u a air und) ∧
      findConv db' 1 7 = some conv' ∧
      conv'.updated_at = 5 ∧
      ((convEx.title = "" ∨ convEx.title = "New Conversation") →
        conv'.title = (pyStrip raw70Ex).take 50
          ++ (if 50 < (pyStrip raw70Ex).length then "..." else "")) ∧
      (¬ (convEx.title = "" ∨ convEx.title = "New Conversation") →
        conv'.title = convEx.title) :=
  C8_title_derivation dbEx 1 7 raw70Ex 5 engineOkEx convEx rfl (by decide)
    (fun m h => by simp [engineOkEx] at h)

/-! ## Lazy singleton initializer (`get_semantic_bot`, lines 22-104)

A small-step transition system.  The shared state is the module's globals:
`_semantic_bot` (`bot`), `_bot_loading` (`loading`), `_bot_ready_event`'s
flag (`event`) and the holder of `_bot_load_lock` (`lockOwner`).  Each
thread (request handlers and the pre-warm thread all run the same function)
is a program location inside `get_semantic_bot`.  Constructed engine objects
are named by a counter (`nextHandle`), and `constructions` counts how many
times the `SemanticChatbot()` construction has been entered.  Timing is
abstracted: an event wait may time out nondeterministically whenever the
event is not set. -/

/-- The outcome a call to `get_semantic_bot` ends with: a returned value of
`_semantic_bot` (an engine handle, or `none` should the slot still be
unset), a raised `TimeoutError` (line 48), or a raised `RuntimeError`
(lines 82-85). -/
inductive BotOutcome where
  | ok (h : Option Nat)
  | timeoutErr
  | initErr (msg : String)
deriving Repr, DecidableEq

/-- Program locations of one thread inside `get_semantic_bot`:
`start` — line 35, the lock-free fast-path check;
`awaitLock` — line 39, blocked acquiring `_bot_load_lock` (no timeout);
`doubleCheck` — line 41, holding the lock, re-checking the slot;
`checkLoading` — line 44, holding the lock, reading `_bot_loading`;
`waitEvent` — line 47, holding the lock, in `_bot_ready_event.wait(60)`;
`construct` — lines 52-60, holding the lock, `_bot_loading` set, running
`SemanticChatbot()`;
`publish h` — line 60 finished: `_semantic_bot = h` assigned, before the
event set / `finally` / lock release;
`done r` — left the function with outcome `r`. -/
inductive Loc where
  | start
  | awaitLock
  | doubleCheck
  | checkLoading
  | waitEvent
  | construct
  | publish (h : Nat)
  | done (r : BotOutcome)
deriving Repr, DecidableEq

/-- Pointwise update of the thread-location map. -/
def setThread (f : Nat → Loc) (t : Nat) (l : Loc) : Nat → Loc :=
  fun u => if u = t then l else f u

/-- The process-wide state: the module globals plus every thread's location. -/
structure BotState where
  bot : Option Nat
  loading : Bool
  event : Bool
  lockOwner : Option Nat
  threads : Nat → Loc
  nextHandle : Nat
  constructions : Nat

/-- Process start: slot empty, not loading, event clear, lock free, every
thread about to run the fast-path check. -/
def initBotState : BotState :=
  { bot := none, loading := false, event := false, lockOwner := none,
    threads := fun _ => .start, nextHandle := 0, constructions := 0 }

/-- The `RuntimeError` message of lines 82-85: it wraps the underlying cause
and the hint about missing model dependencies. -/
def initFailureMessage (cause : String) : String :=
  "Chatbot initialization failed: " ++ cause ++
    ". Check that spaCy model and sentence-transformers are installed correctly."

/-- Lines 73-87, the `except` handler of a failed construction: reset
`_bot_loading`, clear `_bot_ready_event`, run the `finally`, leave the
`with` block (releasing the lock) and raise the wrapped `RuntimeError`. -/
def failState (s : BotState) (t : Nat) (cause : String) : BotState :=
  { s with
    loading := false
    event := false
    lockOwner := none
    threads := setThread s.threads t (.done (.initErr (initFailureMessage cause))) }

/-- One atomic step of `get_semantic_bot` by one thread. -/
inductive BotStep : BotState → BotState → Prop where
  /-- Line 35-36: the fast path sees a published handle and returns it. -/
  | fastHit (s : BotState) (t : Nat) (h : Nat) :
      s.threads t = .start → s.bot = some h →
      BotStep s { s with threads := setThread s.threads t (.done (.ok (some h))) }
  /-- Line 35: the fast path sees the empty slot and falls through to line 39. -/
  | fastMiss (s : BotState) (t : Nat) :
      s.threads t = .start → s.bot = none →
      BotStep s { s with threads := setThread s.threads t .awaitLock }
  /-- Line 39: `_bot_load_lock` is free; the thread takes it.  A held lock
  blocks the caller indefinitely — the acquisition itself has no timeout. -/
  | acquire (s : BotState) (t : Nat) :
      s.threads t = .awaitLock → s.lockOwner = none →
      BotStep s { s with
        lockOwner := some t
        threads := setThread s.threads t .doubleCheck }
  /-- Lines 41-42: the double check sees a published handle; return it,
  releasing the lock on the way out. -/
  | recheckHit (s : BotState) (t : Nat) (h : Nat) :
      s.threads t = .doubleCheck → s.bot = some h →
      BotStep s { s with
        lockOwner := none
        threads := setThread s.threads t (.done (.ok (some h))) }
  /-- Line 41: the double check still sees the empty slot. -/
  | recheckMiss (s : BotState) (t : Nat) :
      s.threads t = .doubleCheck → s.bot = none →
      BotStep s { s with threads := setThread s.threads t .checkLoading }
  /-- Lines 44-47: `_bot_loading` reads true; wait on the ready event
  (still holding the lock). -/
  | seeLoading (s : BotState) (t : Nat) :
      s.threads t = .checkLoading → s.loading = true →
      BotStep s { s with threads := setThread s.threads t .waitEvent }
  /-- Line 52: `_bot_loading` reads false; mark it and start constructing. -/
  | beginLoading (s : BotState) (t : Nat) :
      s.threads t = .checkLoading → s.loading = false →
      BotStep s { s with
        loading := true
        constructions := s.constructions + 1
        threads := setThread s.threads t .construct }
  /-- Lines 47-49: the event is set; `wait` returns true and the thread
  returns `_semantic_bot`, releasing the lock on the way out. -/
  | waitSignalled (s : BotState) (t : Nat) :
      s.threads t = .waitEvent → s.event = true →
      BotStep s { s with
        lockOwner := none
        threads := setThread s.threads t (.done (.ok s.bot)) }
  /-- Line 48: 60 seconds elapse with the event still clear; `wait` returns
  false and `TimeoutError` is raised, releasing the lock on the way out. -/
  | waitTimedOut (s : BotState) (t : Nat) :
      s.threads t = .waitEvent → s.event = false →
      BotStep s { s with
        lockOwner := none
        threads := setThread s.threads t (.done .timeoutErr) }
  /-- Line 60: `SemanticChatbot()` returns; the new handle is stored in
  `_semantic_bot`. -/
  | constructOk (s : BotState) (t : Nat) :
      s.threads t = .construct →
      BotStep s { s with
        bot := some s.nextHandle
        nextHandle := s.nextHandle + 1
        threads := setThread s.threads t (.publish s.nextHandle) }
  /-- Lines 66-87 (success tail): set the ready event, run the `finally`
  (`_bot_loading = False`), leave the `with` block and return the handle. -/
  | publishDone (s : BotState) (t : Nat) (h : Nat) :
      s.threads t = .publish h →
      BotStep s { s with
        event := true
        loading := false
        lockOwner := none
        threads := setThread s.threads t (.done (.ok (some h))) }
  /-- Lines 73-87: `SemanticChatbot()` raises; the handler resets the state
  and re-raises a wrapped `RuntimeError`. -/
  | constructFail (s : BotState) (t : Nat) (cause : String) :
      s.threads t = .construct →
      BotStep s (failState s t cause)

/-- A process state reachable from start by any interleaving of calls. -/
def BotReachable (s : BotState) : Prop :=
  Relation.ReflTransGen BotStep initBotState s

/-- Locations at which the thread holds `_bot_load_lock`. -/
def lockLoc : Loc → Bool
  | .doubleCheck => true
  | .checkLoading => true
  | .waitEvent => true
  | .construct => true
  | .publish _ => true
  | _ => false

/-- The inductive invariant of the initializer. -/
structure BotInv (s : BotState) : Prop where
  lockOwner_of : ∀ t, lockLoc (s.threads t) = true → s.lockOwner = some t
  no_waitEvent : ∀ t, s.threads t ≠ .waitEvent
  no_timeout : ∀ t, s.threads t ≠ .done .timeoutErr
  checkLoading_st : ∀ t, s.threads t = .checkLoading → s.bot = none ∧ s.loading = false
  loading_witness : s.loading = true →
    ∃ t, s.threads t = .construct ∨ ∃ h, s.threads t = .publish h
  construct_bot : ∀ t, s.threads t = .construct → s.bot = none
  publish_bot : ∀ t h, s.threads t = .publish h → s.bot = some h
  done_ok_bot : ∀ t v, s.threads t = .done (.ok v) → ∃ h, v = some h ∧ s.bot = some h

/-- The initial state satisfies the invariant. -/
theorem botInv_init : BotInv initBotState := by
  refine ⟨?_, ?_, ?_, ?_, ?_, ?_, ?_, ?_⟩ <;>
    simp [initBotState, lockLoc]

/-- Updating a thread's location reads back at that thread. -/
theorem setThread_self (f : Nat → Loc) (t : Nat) (l : Loc) : setThread f t l t = l := by
  simp [setThread]

/-- Updating a thread's location leaves the others unchanged. -/
theorem setThread_ne (f : Nat → Loc) (t : Nat) (l : Loc) (u : Nat) (h : u ≠ t) :
    setThread f t l u = f u := by
  simp [setThread, h]

/-- Two threads inside the lock-holding region are the same thread. -/
theorem lockLoc_unique (s : BotState)
    (ilock : ∀ w, lockLoc (s.threads w) = true → s.lockOwner = some w)
    (t u : Nat) (ht : lockLoc (s.threads t) = true)
    (hu : lockLoc (s.threads u) = true) : u = t :=
  Option.some.inj ((ilock u hu).symm.trans (ilock t ht))

/-- The invariant is preserved by every step. -/
theorem botInv_step (s s' : BotState) (hinv : BotInv s) (hstep : BotStep s s') :
    BotInv s' := by
  obtain ⟨ilock, iwait, itime, icheck, iloadw, icbot, ipbot, idone⟩ := hinv
  cases hstep with
  | fastHit t h ht hb =>
      refine ⟨?_, ?_, ?_, ?_, ?_, ?_, ?_, ?_⟩
      · intro u hl
        by_cases hu : u = t
        · subst hu; simp only [setThread_self] at hl; simp [lockLoc] at hl
        · simp only [setThread_ne _ _ _ _ hu] at hl; exact ilock u hl
      · intro u
        by_cases hu : u = t
        · subst hu; simp only [setThread_self]; simp
        · simp only [setThread_ne _ _ _ _ hu]; exact iwait u
      · intro u
        by_cases hu : u = t
        · subst hu; simp only [setThread_self]; simp
        · simp only [setThread_ne _ _ _ _ hu]; exact itime u
      · intro u hu'
        by_cases hu : u = t
        · subst hu; simp only [setThread_self] at hu'; simp at hu'
        · simp only [setThread_ne _ _ _ _ hu] at hu'; exact icheck u hu'
      · intro hl
        obtain ⟨w, hw⟩ := iloadw hl
        have hwt : w ≠ t := by
          intro he; subst he
          rcases hw with hw | ⟨h', hw⟩ <;> rw [ht] at hw <;> simp at hw
        exact ⟨w, by simp only [setThread_ne _ _ _ _ hwt]; exact hw⟩
      · intro u hu'
        by_cases hu : u = t
        · subst hu; simp only [setThread_self] at hu'; simp at hu'
        · simp only [setThread_ne _ _ _ _ hu] at hu'; exact icbot u hu'
      · intro u h' hu'
        by_cases hu : u = t
        · subst hu; simp only [setThread_self] at hu'; simp at hu'
        · simp only [setThread_ne _ _ _ _ hu] at hu'; exact ipbot u h' hu'
      · intro u v hu'
        by_cases hu : u = t
        · subst hu; simp only [setThread_self] at hu'
          simp only [Loc.done.injEq, BotOutcome.ok.injEq] at hu'
          exact ⟨h, hu'.symm, hb⟩
        · simp only [setThread_ne _ _ _ _ hu] at hu'; exact idone u v hu'
  | fastMiss t ht hb =>
      refine ⟨?_, ?_, ?_, ?_, ?_, ?_, ?_, ?_⟩
      · intro u hl
        by_cases hu : u = t
        · subst hu; simp only [setThread_self] at hl; simp [lockLoc] at hl
        · simp only [setThread_ne _ _ _ _ hu] at hl; exact ilock u hl
      · intro u
        by_cases hu : u = t
        · subst hu; simp only [setThread_self]; simp
        · simp only [setThread_ne _ _ _ _ hu]; exact iwait u
      · intro u
        by_cases hu : u = t
        · subst hu; simp only [setThread_self]; simp
        · simp only [setThread_ne _ _ _ _ hu]; exact itime u
      · intro u hu'
        by_cases hu : u = t
        · subst hu; simp only [setThread_self] at hu'; simp at hu'
        · simp only [setThread_ne _ _ _ _ hu] at hu'; exact icheck u hu'
      · intro hl
        obtain ⟨w, hw⟩ := iloadw hl
        have hwt : w ≠ t := by
          intro he; subst he
          rcases hw with hw | ⟨h', hw⟩ <;> rw [ht] at hw <;> simp at hw
        exact ⟨w, by simp only [setThread_ne _ _ _ _ hwt]; exact hw⟩
      · intro u hu'
        by_cases hu : u = t
        · subst hu; simp only [setThread_self] at hu'; simp at hu'
        · simp only [setThread_ne _ _ _ _ hu] at hu'; exact icbot u hu'
      · intro u h' hu'
        by_cases hu : u = t
        · subst hu; simp only [setThread_self] at hu'; simp at hu'
        · simp only [setThread_ne _ _ _ _ hu] at hu'; exact ipbot u h' hu'
      · intro u v hu'
        by_cases hu : u = t
        · subst hu; simp only [setThread_self] at hu'; simp at hu'
        · simp only [setThread_ne _ _ _ _ hu] at hu'; exact idone u v hu'
  | acquire t ht hlk =>
      refine ⟨?_, ?_, ?_, ?_, ?_, ?_, ?_, ?_⟩
      · intro u hl
        by_cases hu : u = t
        · subst hu; rfl
        · simp only [setThread_ne _ _ _ _ hu] at hl
          have := ilock u hl
          rw [hlk] at this; cases this
      · intro u
        by_cases hu : u = t
        · subst hu; simp only [setThread_self]; simp
        · simp only [setThread_ne _ _ _ _ hu]; exact iwait u
      · intro u
        by_cases hu : u = t
        · subst hu; simp only [setThread_self]; simp
        · simp only [setThread_ne _ _ _ _ hu]; exact itime u
      · intro u hu'
        by_cases hu : u = t
        · subst hu; simp only [setThread_self] at hu'; simp at hu'
        · simp only [setThread_ne _ _ _ _ hu] at hu'; exact icheck u hu'
      · intro hl
        obtain ⟨w, hw⟩ := iloadw hl
        have hwt : w ≠ t := by
          intro he; subst he
          rcases hw with hw | ⟨h', hw⟩ <;> rw [ht] at hw <;> simp at hw
        exact ⟨w, by simp only [setThread_ne _ _ _ _ hwt]; exact hw⟩
      · intro u hu'
        by_cases hu : u = t
        · subst hu; simp only [setThread_self] at hu'; simp at hu'
        · simp only [setThread_ne _ _ _ _ hu] at hu'; exact icbot u hu'
      · intro u h' hu'
        by_cases hu : u = t
        · subst hu; simp only [setThread_self] at hu'; simp at hu'
        · simp only [setThread_ne _ _ _ _ hu] at hu'; exact ipbot u h' hu'
      · intro u v hu'
        by_cases hu : u = t
        · subst hu; simp only [setThread_self] at hu'; simp at hu'
        · simp only [setThread_ne _ _ _ _ hu] at hu'; exact idone u v hu'
  | recheckHit t h ht hb =>
      have hlt : lockLoc (s.threads t) = true := by rw [ht]; rfl
      refine ⟨?_, ?_, ?_, ?_, ?_, ?_, ?_, ?_⟩
      · intro u hl
        by_cases hu : u = t
        · subst hu; simp only [setThread_self] at hl; simp [lockLoc] at hl
        · simp only [setThread_ne _ _ _ _ hu] at hl
          exact absurd (lockLoc_unique s ilock t u hlt hl) hu
      · intro u
        by_cases hu : u = t
        · subst hu; simp only [setThread_self]; simp
        · simp only [setThread_ne _ _ _ _ hu]; exact iwait u
      · intro u
        by_cases hu : u = t
        · subst hu; simp only [setThread_self]; simp
        · simp only [setThread_ne _ _ _ _ hu]; exact itime u
      · intro u hu'
        by_cases hu : u = t
        · subst hu; simp only [setThread_self] at hu'; simp at hu'
        · simp only [setThread_ne _ _ _ _ hu] at hu'; exact icheck u hu'
      · intro hl
        obtain ⟨w, hw⟩ := iloadw hl
        have hwt : w ≠ t := by
          intro he; subst he
          rcases hw with hw | ⟨h', hw⟩ <;> rw [ht] at hw <;> simp at hw
        exact ⟨w, by simp only [setThread_ne _ _ _ _ hwt]; exact hw⟩
      · intro u hu'
        by_cases hu : u = t
        · subst hu; simp only [setThread_self] at hu'; simp at hu'
        · simp only [setThread_ne _ _ _ _ hu] at hu'; exact icbot u hu'
      · intro u h' hu'
        by_cases hu : u = t
        · subst hu; simp only [setThread_self] at hu'; simp at hu'
        · simp only [setThread_ne _ _ _ _ hu] at hu'; exact ipbot u h' hu'
      · intro u v hu'
        by_cases hu : u = t
        · subst hu; simp only [setThread_self] at hu'
          simp only [Loc.done.injEq, BotOutcome.ok.injEq] at hu'
          exact ⟨h, hu'.symm, hb⟩
        · simp only [setThread_ne _ _ _ _ hu] at hu'; exact idone u v hu'
  | recheckMiss t ht hb =>
      have hlt : lockLoc (s.threads t) = true := by rw [ht]; rfl
      refine ⟨?_, ?_, ?_, ?_, ?_, ?_, ?_, ?_⟩
      · intro u hl
        by_cases hu : u = t
        · subst hu; exact ilock u hlt
        · simp only [setThread_ne _ _ _ _ hu] at hl; exact ilock u hl
      · intro u
        by_cases hu : u = t
        · subst hu; simp only [setThread_self]; simp
        · simp only [setThread_ne _ _ _ _ hu]; exact iwait u
      · intro u
        by_cases hu : u = t
        · subst hu; simp only [setThread_self]; simp
        · simp only [setThread_ne _ _ _ _ hu]; exact itime u
      · intro u hu'
        by_cases hu : u = t
        · subst hu
          refine ⟨hb, ?_⟩
          cases hld : s.loading with
          | false => rfl
          | true =>
              obtain ⟨w, hw⟩ := iloadw hld
              have hwl : lockLoc (s.threads w) = true := by
                rcases hw with hw | ⟨h', hw⟩ <;> rw [hw] <;> rfl
              have := lockLoc_unique s ilock u w hlt hwl
              subst this
              rcases hw with hw | ⟨h', hw⟩ <;> rw [ht] at hw <;> simp at hw
        · simp only [setThread_ne _ _ _ _ hu] at hu'; exact icheck u hu'
      · intro hl
        obtain ⟨w, hw⟩ := iloadw hl
        have hwt : w ≠ t := by
          intro he; subst he
          rcases hw with hw | ⟨h', hw⟩ <;> rw [ht] at hw <;> simp at hw
        exact ⟨w, by simp only [setThread_ne _ _ _ _ hwt]; exact hw⟩
      · intro u hu'
        by_cases hu : u = t
        · subst hu; simp only [setThread_self] at hu'; simp at hu'
        · simp only [setThread_ne _ _ _ _ hu] at hu'; exact icbot u hu'
      · intro u h' hu'
        by_cases hu : u = t
        · subst hu; simp only [setThread_self] at hu'; simp at hu'
        · simp only [setThread_ne _ _ _ _ hu] at hu'; exact ipbot u h' hu'
      · intro u v hu'
        by_cases hu : u = t
        · subst hu; simp only [setThread_self] at hu'; simp at hu'
        · simp only [setThread_ne _ _ _ _ hu] at hu'; exact idone u v hu'
  | seeLoading t ht hld =>
      have := (icheck t ht).2
      rw [hld] at this
      cases this
  | beginLoading t ht hld =>
      have hlt : lockLoc (s.threads t) = true := by rw [ht]; rfl
      refine ⟨?_, ?_, ?_, ?_, ?_, ?_, ?_, ?_⟩
      · intro u hl
        by_cases hu : u = t
        · subst hu; exact ilock u hlt
        · simp only [setThread_ne _ _ _ _ hu] at hl; exact ilock u hl
      · intro u
        by_cases hu : u = t
        · subst hu; simp only [setThread_self]; simp
        · simp only [setThread_ne _ _ _ _ hu]; exact iwait u
      · intro u
        by_cases hu : u = t
        · subst hu; simp only [setThread_self]; simp
        · simp only [setThread_ne _ _ _ _ hu]; exact itime u
      · intro u hu'
        by_cases hu : u = t
        · subst hu; simp only [setThread_self] at hu'; simp at hu'
        · simp only [setThread_ne _ _ _ _ hu] at hu'
          have hul : lockLoc (s.threads u) = true := by rw [hu']; rfl
          exact absurd (lockLoc_unique s ilock t u hlt hul) hu
      · intro _
        exact ⟨t, .inl (setThread_self _ _ _)⟩
      · intro u hu'
        by_cases hu : u = t
        · subst hu; exact (icheck u ht).1
        · simp only [setThread_ne _ _ _ _ hu] at hu'; exact icbot u hu'
      · intro u h' hu'
        by_cases hu : u = t
        · subst hu; simp only [setThread_self] at hu'; simp at hu'
        · simp only [setThread_ne _ _ _ _ hu] at hu'; exact ipbot u h' hu'
      · intro u v hu'
        by_cases hu : u = t
        · subst hu; simp only [setThread_self] at hu'; simp at hu'
        · simp only [setThread_ne _ _ _ _ hu] at hu'; exact idone u v hu'
  | waitSignalled t ht hev => exact absurd ht (iwait t)
  | waitTimedOut t ht hev => exact absurd ht (iwait t)
  | constructOk t ht =>
      have hlt : lockLoc (s.threads t) = true := by rw [ht]; rfl
      refine ⟨?_, ?_, ?_, ?_, ?_, ?_, ?_, ?_⟩
      · intro u hl
        by_cases hu : u = t
        · subst hu; exact ilock u hlt
        · simp only [setThread_ne _ _ _ _ hu] at hl; exact ilock u hl
      · intro u
        by_cases hu : u = t
        · subst hu; simp only [setThread_self]; simp
        · simp only [setThread_ne _ _ _ _ hu]; exact iwait u
      · intro u
        by_cases hu : u = t
        · subst hu; simp only [setThread_self]; simp
        · simp only [setThread_ne _ _ _ _ hu]; exact itime u
      · intro u hu'
        by_cases hu : u = t
        · subst hu; simp only [setThread_self] at hu'; simp at hu'
        · simp only [setThread_ne _ _ _ _ hu] at hu'
          have hul : lockLoc (s.threads u) = true := by rw [hu']; rfl
          exact absurd (lockLoc_unique s ilock t u hlt hul) hu
      · intro _
        exact ⟨t, .inr ⟨s.nextHandle, setThread_self _ _ _⟩⟩
      · intro u hu'
        by_cases hu : u = t
        · subst hu; simp only [setThread_self] at hu'; simp at hu'
        · simp only [setThread_ne _ _ _ _ hu] at hu'
          have hul : lockLoc (s.threads u) = true := by rw [hu']; rfl
          exact absurd (lockLoc_unique s ilock t u hlt hul) hu
      · intro u h' hu'
        by_cases hu : u = t
        · subst hu; simp only [setThread_self] at hu'
          simp only [Loc.publish.injEq] at hu'
          rw [hu']
        · simp only [setThread_ne _ _ _ _ hu] at hu'
          have hul : lockLoc (s.threads u) = true := by rw [hu']; rfl
          exact absurd (lockLoc_unique s ilock t u hlt hul) hu
      · intro u v hu'
        by_cases hu : u = t
        · subst hu; simp only [setThread_self] at hu'; simp at hu'
        · simp only [setThread_ne _ _ _ _ hu] at hu'
          obtain ⟨h', _, hbot⟩ := idone u v hu'
          rw [icbot t ht] at hbot
          cases hbot
  | publishDone t h ht =>
      have hlt : lockLoc (s.threads t) = true := by rw [ht]; rfl
      refine ⟨?_, ?_, ?_, ?_, ?_, ?_, ?_, ?_⟩
      · intro u hl
        by_cases hu : u = t
        · subst hu; simp only [setThread_self] at hl; simp [lockLoc] at hl
        · simp only [setThread_ne _ _ _ _ hu] at hl
          exact absurd (lockLoc_unique s ilock t u hlt hl) hu
      · intro u
        by_cases hu : u = t
        · subst hu; simp only [setThread_self]; simp
        · simp only [setThread_ne _ _ _ _ hu]; exact iwait u
      · intro u
        by_cases hu : u = t
        · subst hu; simp only [setThread_self]; simp
        · simp only [setThread_ne _ _ _ _ hu]; exact itime u
      · intro u hu'
        by_cases hu : u = t
        · subst hu; simp only [setThread_self] at hu'; simp at hu'
        · simp only [setThread_ne _ _ _ _ hu] at hu'
          have hul : lockLoc (s.threads u) = true := by rw [hu']; rfl
          exact absurd (lockLoc_unique s ilock t u hlt hul) hu
      · intro hl
        simp at hl
      · intro u hu'
        by_cases hu : u = t
        · subst hu; simp only [setThread_self] at hu'; simp at hu'
        · simp only [setThread_ne _ _ _ _ hu] at hu'
          have hul : lockLoc (s.threads u) = true := by rw [hu']; rfl
          exact absurd (lockLoc_unique s ilock t u hlt hul) hu
      · intro u h' hu'
        by_cases hu : u = t
        · subst hu; simp only [setThread_self] at hu'; simp at hu'
        · simp only [setThread_ne _ _ _ _ hu] at hu'
          have hul : lockLoc (s.threads u) = true := by rw [hu']; rfl
          exact absurd (lockLoc_unique s ilock t u hlt hul) hu
      · intro u v hu'
        by_cases hu : u = t
        · subst hu; simp only [setThread_self] at hu'
          simp only [Loc.done.injEq, BotOutcome.ok.injEq] at hu'
          exact ⟨h, hu'.symm, ipbot u h ht⟩
        · simp only [setThread_ne _ _ _ _ hu] at hu'; exact idone u v hu'
  | constructFail t cause ht =>
      have hlt : lockLoc (s.threads t) = true := by rw [ht]; rfl
      unfold failState
      refine ⟨?_, ?_, ?_, ?_, ?_, ?_, ?_, ?_⟩
      · intro u hl
        by_cases hu : u = t
        · subst hu; simp only [setThread_self] at hl; simp [lockLoc] at hl
        · simp only [setThread_ne _ _ _ _ hu] at hl
          exact absurd (lockLoc_unique s ilock t u hlt hl) hu
      · intro u
        by_cases hu : u = t
        · subst hu; simp only [setThread_self]; simp
        · simp only [setThread_ne _ _ _ _ hu]; exact iwait u
      · intro u
        by_cases hu : u = t
        · subst hu; simp only [setThread_self]; simp
        · simp only [setThread_ne _ _ _ _ hu]; exact itime u
      · intro u hu'
        by_cases hu : u = t
        · subst hu; simp only [setThread_self] at hu'; simp at hu'
        · simp only [setThread_ne _ _ _ _ hu] at hu'
          exact ⟨(icheck u hu').1, rfl⟩
      · intro hl
        simp at hl
      · intro u hu'
        by_cases hu : u = t
        · subst hu; simp only [setThread_self] at hu'; simp at hu'
        · simp only [setThread_ne _ _ _ _ hu] at hu'; exact icbot u hu'
      · intro u h' hu'
        by_cases hu : u = t
        · subst hu; simp only [setThread_self] at hu'; simp at hu'
        · simp only [setThread_ne _ _ _ _ hu] at hu'
          have hul : lockLoc (s.threads u) = true := by rw [hu']; rfl
          exact absurd (lockLoc_unique s ilock t u hlt hul) hu
      · intro u v hu'
        by_cases hu : u = t
        · subst hu; simp only [setThread_self] at hu'; simp at hu'
        · simp only [setThread_ne _ _ _ _ hu] at hu'; exact idone u v hu'

/-- Every reachable state satisfies the invariant. -/
theorem botInv_reachable (s : BotState) (hs : BotReachable s) : BotInv s := by
  induction hs with
  | refl => exact botInv_init
  | tail _ hbc ih => exact botInv_step _ _ ih hbc

/-- Once the slot is populated, a single step neither re-enters the
construction nor changes the slot. -/
theorem bot_populated_stable (s s' : BotState) (hinv : BotInv s) (h : Nat)
    (hb : s.bot = some h) (hstep : BotStep s s') :
    s'.bot = some h ∧ s'.constructions = s.constructions := by
  cases hstep with
  | fastHit t h' ht hb' => exact ⟨hb, rfl⟩
  | fastMiss t ht hb' => exact ⟨hb, rfl⟩
  | acquire t ht hlk => exact ⟨hb, rfl⟩
  | recheckHit t h' ht hb' => exact ⟨hb, rfl⟩
  | recheckMiss t ht hb' => exact ⟨hb, rfl⟩
  | seeLoading t ht hld =>
      have := (hinv.checkLoading_st t ht).2
      rw [hld] at this
      cases this
  | beginLoading t ht hld =>
      have := (hinv.checkLoading_st t ht).1
      rw [hb] at this
      cases this
  | waitSignalled t ht hev => exact absurd ht (hinv.no_waitEvent t)
  | waitTimedOut t ht hev => exact absurd ht (hinv.no_waitEvent t)
  | constructOk t ht =>
      have := hinv.construct_bot t ht
      rw [hb] at this
      cases this
  | publishDone t h' ht => exact ⟨hb, rfl⟩
  | constructFail t cause ht => exact ⟨hb, rfl⟩

/-- C1: for every interleaving of concurrent `get_semantic_bot` calls, the
construction executes at most once while the singleton slot is populated —
from any reachable state whose slot holds `h`, no further execution ever
increments the construction counter or changes the slot — and every caller
that returns successfully after the handle is published returns that same
handle. -/
theorem C1_singleton_at_most_once (s s' : BotState) (hs : BotReachable s)
    (hss : Relation.ReflTransGen BotStep s s') (h : Nat) (hb : s.bot = some h) :
    s'.constructions = s.constructions ∧ s'.bot = some h ∧
      ∀ t v, s'.threads t = .done (.ok v) → v = some h := by
  have hstable : ∀ s2, Relation.ReflTransGen BotStep s s2 →
      BotInv s2 ∧ s2.bot = some h ∧ s2.constructions = s.constructions := by
    intro s2 h2
    induction h2 with
    | refl => exact ⟨botInv_reachable s hs, hb, rfl⟩
    | tail _ hbc ih =>
        obtain ⟨inv1, hb1, hc1⟩ := ih
        obtain ⟨hb2, hc2⟩ := bot_populated_stable _ _ inv1 h hb1 hbc
        exact ⟨botInv_step _ _ inv1 hbc, hb2, hc2.trans hc1⟩
  obtain ⟨inv', hb', hc'⟩ := hstable s' hss
  refine ⟨hc', hb', ?_⟩
  intro t v hv
  obtain ⟨h', hv', hbot⟩ := inv'.done_ok_bot t v hv
  have hhh : h = h' := Option.some.inj (hb'.symm.trans hbot)
  rw [hv', hhh]

/-- C2: the 60-second timeout branch is dead code.  In no reachable state is
any thread inside the event wait of line 47, no call ever ends with
`TimeoutError`, and a thread blocked acquiring `_bot_load_lock` while the
lock is held cannot move at all — its waiting is bounded by the lock (which
the initializing thread holds across the entire construction), not by any
timeout. -/
theorem C2_timeout_branch_unreachable (s : BotState) (hs : BotReachable s) :
    (∀ t, s.threads t ≠ .waitEvent) ∧
    (∀ t, s.threads t ≠ .done .timeoutErr) ∧
    (∀ t, s.threads t = .awaitLock → s.lockOwner ≠ none →
      ∀ s', BotStep s s' → s'.threads t = .awaitLock) := by
  have hinv := botInv_reachable s hs
  refine ⟨hinv.no_waitEvent, hinv.no_timeout, ?_⟩
  intro t ht hlk s' hstep
  cases hstep with
  | fastHit t' h ht' hb =>
      by_cases hu : t = t'
      · subst hu; rw [ht] at ht'; simp at ht'
      · simp only [setThread_ne _ _ _ _ hu]; exact ht
  | fastMiss t' ht' hb =>
      by_cases hu : t = t'
      · subst hu; rw [ht] at ht'; simp at ht'
      · simp only [setThread_ne _ _ _ _ hu]; exact ht
  | acquire t' ht' hlk' => exact absurd hlk' hlk
  | recheckHit t' h ht' hb =>
      by_cases hu : t = t'
      · subst hu; rw [ht] at ht'; simp at ht'
      · simp only [setThread_ne _ _ _ _ hu]; exact ht
  | recheckMiss t' ht' hb =>
      by_cases hu : t = t'
      · subst hu; rw [ht] at ht'; simp at ht'
      · simp only [setThread_ne _ _ _ _ hu]; exact ht
  | seeLoading t' ht' hld =>
      by_cases hu : t = t'
      · subst hu; rw [ht] at ht'; simp at ht'
      · simp only [setThread_ne _ _ _ _ hu]; exact ht
  | beginLoading t' ht' hld =>
      by_cases hu : t = t'
      · subst hu; rw [ht] at ht'; simp at ht'
      · simp only [setThread_ne _ _ _ _ hu]; exact ht
  | waitSignalled t' ht' hev =>
      by_cases hu : t = t'
      · subst hu; rw [ht] at ht'; simp at ht'
      · simp only [setThread_ne _ _ _ _ hu]; exact ht
  | waitTimedOut t' ht' hev =>
      by_cases hu : t = t'
      · subst hu; rw [ht] at ht'; simp at ht'
      · simp only [setThread_ne _ _ _ _ hu]; exact ht
  | constructOk t' ht' =>
      by_cases hu : t = t'
      · subst hu; rw [ht] at ht'; simp at ht'
      · simp only [setThread_ne _ _ _ _ hu]; exact ht
  | publishDone t' h ht' =>
      by_cases hu : t = t'
      · subst hu; rw [ht] at ht'; simp at ht'
      · simp only [setThread_ne _ _ _ _ hu]; exact ht
  | constructFail t' cause ht' =>
      by_cases hu : t = t'
      · subst hu; rw [ht] at ht'; simp at ht'
      · unfold failState
        simp only [setThread_ne _ _ _ _ hu]
        exact ht

/-- From any state with a free lock, empty slot and cleared loading flag, a
thread still at the entry point can run the whole initialization to
completion and obtain a fresh handle. -/
theorem retry_possible (s0 : BotState) (u : Nat)
    (hth : s0.threads u = .start) (hbot : s0.bot = none)
    (hld : s0.loading = false) (hlk : s0.lockOwner = none) :
    ∃ s' h, Relation.ReflTransGen BotStep s0 s' ∧
      s'.bot = some h ∧ s'.threads u = .done (.ok (some h)) := by
  have htrace := Relation.ReflTransGen.head (BotStep.fastMiss s0 u hth hbot)
    (Relation.ReflTransGen.head (BotStep.acquire _ u (setThread_self _ _ _) hlk)
      (Relation.ReflTransGen.head (BotStep.recheckMiss _ u (setThread_self _ _ _) hbot)
        (Relation.ReflTransGen.head (BotStep.beginLoading _ u (setThread_self _ _ _) hld)
          (Relation.ReflTransGen.head (BotStep.constructOk _ u (setThread_self _ _ _))
            (Relation.ReflTransGen.head
              (BotStep.publishDone _ u s0.nextHandle (setThread_self _ _ _))
              Relation.ReflTransGen.refl)))))
  exact ⟨_, s0.nextHandle, htrace, rfl, setThread_self _ _ _⟩

/-- C7: whenever engine construction fails inside `get_semantic_bot`, the
failure handler leaves the initializer uninitialized — handle absent,
in-progress flag false, ready-event cleared — the failing call raises the
`RuntimeError` wrapping the underlying cause together with the hint about
missing model dependencies, and a future caller can retry: any thread still
at the entry point can go on to construct and obtain a handle. -/
theorem C7_failure_resets_state (s : BotState) (hs : BotReachable s) (t : Nat)
    (cause : String) (hloc : s.threads t = .construct) :
    (failState s t cause).bot = none ∧
    (failState s t cause).loading = false ∧
    (failState s t cause).event = false ∧
    (failState s t cause).threads t = .done (.initErr (initFailureMessage cause)) ∧
    BotStep s (failState s t cause) ∧
    (∀ u, s.threads u = .start →
      ∃ s' h, Relation.ReflTransGen BotStep (failState s t cause) s' ∧
        s'.bot = some h ∧ s'.threads u = .done (.ok (some h))) := by
  have hinv := botInv_reachable s hs
  have hbot : s.bot = none := hinv.construct_bot t hloc
  refine ⟨hbot, rfl, rfl, setThread_self _ _ _,
    BotStep.constructFail s t cause hloc, ?_⟩
  intro u hu
  have hut : u ≠ t := by
    intro he; subst he
    rw [hloc] at hu
    cases hu
  refine retry_possible (failState s t cause) u ?_ hbot rfl rfl
  simp only [failState, setThread_ne _ _ _ _ hut]
  exact hu

/-- State after thread 0 runs the fast path and misses. -/
def botS1 : BotState :=
  { initBotState with threads := setThread initBotState.threads 0 .awaitLock }

/-- State after thread 0 takes the lock. -/
def botS2 : BotState :=
  { botS1 with
    lockOwner := some 0
    threads := setThread botS1.threads 0 .doubleCheck }

/-- State after thread 0's double check misses. -/
def botS3 : BotState :=
  { botS2 with threads := setThread botS2.threads 0 .checkLoading }

/-- State after thread 0 marks `_bot_loading` and starts constructing. -/
def botS4 : BotState :=
  { botS3 with
    loading := true
    constructions := botS3.constructions + 1
    threads := setThread botS3.threads 0 .construct }

/-- State after thread 0's construction succeeds and the slot is assigned. -/
def botS5 : BotState :=
  { botS4 with
    bot := some botS4.nextHandle
    nextHandle := botS4.nextHandle + 1
    threads := setThread botS4.threads 0 (.publish botS4.nextHandle) }

/-- State after thread 0 signals the event, cleans up and returns handle 0. -/
def botS6 : BotState :=
  { botS5 with
    event := true
    loading := false
    lockOwner := none
    threads := setThread botS5.threads 0 (.done (.ok (some 0))) }

/-- The mid-construction state is reachable. -/
theorem botS4_reachable : BotReachable botS4 :=
  Relation.ReflTransGen.head (BotStep.fastMiss initBotState 0 rfl rfl)
    (Relation.ReflTransGen.head (BotStep.acquire botS1 0 rfl rfl)
      (Relation.ReflTransGen.head (BotStep.recheckMiss botS2 0 rfl rfl)
        (Relation.ReflTransGen.head (BotStep.beginLoading botS3 0 rfl rfl)
          Relation.ReflTransGen.refl)))

/-- The constructed-and-published state is reachable. -/
theorem botS6_reachable : BotReachable botS6 :=
  (botS4_reachable.tail (BotStep.constructOk botS4 0 rfl)).tail
    (BotStep.publishDone botS5 0 0 rfl)

/-- Witness for C1 at the reachable state where thread 0 has constructed and
published handle 0. -/
theorem C1_witness :
    botS6.constructions = botS6.constructions ∧ botS6.bot = some 0 ∧
      ∀ t v, botS6.threads t = .done (.ok v) → v = some 0 :=
  C1_singleton_at_most_once botS6 botS6 botS6_reachable
    Relation.ReflTransGen.refl 0 rfl

/-- A reachable state in which thread 0 is constructing (holding the lock)
while thread 1 is blocked acquiring the lock. -/
def botC2 : BotState :=
  { botS4 with threads := setThread botS4.threads 1 .awaitLock }

/-- The two-thread blocked state is reachable. -/
theorem botC2_reachable : BotReachable botC2 :=
  botS4_reachable.tail (BotStep.fastMiss botS4 1 rfl rfl)

/-- Witness for C2: during thread 0's construction, thread 1 is stuck on the
lock — no step moves it, it is not in the event wait, and no timeout outcome
exists. -/
theorem C2_witness :
    botC2.threads 0 ≠ .waitEvent ∧ botC2.threads 1 ≠ .done .timeoutErr ∧
      ∀ s', BotStep botC2 s' → s'.threads 1 = .awaitLock :=
  ⟨(C2_timeout_branch_unreachable botC2 botC2_reachable).1 0,
   (C2_timeout_branch_unreachable botC2 botC2_reachable).2.1 1,
   fun s' hs' => (C2_timeout_branch_unreachable botC2 botC2_reachable).2.2 1 rfl
     (fun hnone => Option.noConfusion hnone) s' hs'⟩

/-- Witness for C7 at the mid-construction state: the failure handler resets
everything, raises the wrapped error, and thread 1 can then retry to
completion. -/
theorem C7_witness :
    (failState botS4 0 "no model").bot = none ∧
    (failState botS4 0 "no model").loading = false ∧
    (failState botS4 0 "no model").event = false ∧
    (failState botS4 0 "no model").threads 0
      = .done (.initErr (initFailureMessage "no model")) ∧
    BotStep botS4 (failState botS4 0 "no model") ∧
    (∀ u, botS4.threads u = .start →
      ∃ s' h, Relation.ReflTransGen BotStep (failState botS4 0 "no model") s' ∧
        s'.bot = some h ∧ s'.threads u = .done (.ok (some h))) :=
  C7_failure_resets_state botS4 botS4_reachable 0 "no model" rfl

end FinanceAI
